import Mathlib

/-!
Verification of the ITS_LIVE data-cube assembly pipeline (`itscube.py`).

The development shallowly embeds the parts of `ITSCube` that the verified
properties are about:

* duplicate-granule resolution (`ITSCube.skip_duplicate_granules`),
* filename date parsing and mid-date derivation
  (`ITSCube.get_dates_from_filename` and the mid-date computation inside
  `skip_duplicate_granules`),
* per-granule pre-processing and layer accumulation
  (`ITSCube.preprocess_dataset`, `ITSCube.add_layer`),
* per-variable attribute extraction (`ITSCube.get_data_var_attr`),
* the set-once fill-value metadata protocol of `ITSCube.combine_layers`
  together with the Zarr store writes,
* the empty-search-result check of `ITSCube.request_granules`.

Python `datetime` values parsed with the `%Y%m%d` format are midnight-aligned,
so acquisition/processing dates are modelled as integer day numbers and
derived timestamps as integer millisecond counts.  Fallible code is modelled
with `Except String`.
-/

namespace ItsLive

/-! ## Definitions -/

/-- Milliseconds in one day (Python `timedelta` arithmetic at millisecond
resolution; microseconds never arise for the quantities used here). -/
def msPerDay : Int := 86400000

/-- One parsed granule reference: the URL (abstracted to an identifier) and
the four dates extracted from the filename by
`ITSCube.get_dates_from_filename` — acquisition and processing date of
image 1 (`url_tokens[3]`, `url_tokens[4]`) and of image 2 (`url_tokens[11]`,
`url_tokens[12]`), as day numbers. -/
structure GranuleRef where
  url : Nat
  acq1 : Int
  proc1 : Int
  acq2 : Int
  proc2 : Int
deriving DecidableEq, Repr, Inhabited

/-- Python `day_separation = (url_acq_1 - url_acq_2).days` — both dates are
midnight-aligned, so the difference is an exact whole number of days. -/
def day_separation (r : GranuleRef) : Int := r.acq1 - r.acq2

/-- Python `mid_date = url_acq_2 + timedelta(days=day_separation/2, milliseconds=day_separation)`
in milliseconds: `d/2` days is `d * 43200000` ms, plus `d` ms. -/
def mid_date (r : GranuleRef) : Int :=
  r.acq2 * msPerDay + day_separation r * 43200000 + day_separation r

/-- The acquisition-date pair that identifies the physical observation. -/
def acq_pair (r : GranuleRef) : Int × Int := (r.acq1, r.acq2)

/-- Loop state of `ITSCube.skip_duplicate_granules`: the parallel lists
`url_mid_dates` / `keep_urls` and the accumulated
`self.skipped_double_granules`. -/
structure DedupState where
  url_mid_dates : List Int
  keep_urls : List GranuleRef
  skipped_double : List GranuleRef
deriving DecidableEq, Repr

/-- Initial loop state (`url_mid_dates = []`, `keep_urls = []`,
`self.skipped_double_granules = []`). -/
def emptyDedupState : DedupState := ⟨[], [], []⟩

/-- One iteration of the loop body of `ITSCube.skip_duplicate_granules`
for the granule `r`:
if `mid_date in url_mid_dates`, look up the currently kept granule at
`index = url_mid_dates.index(mid_date)`; a differing acquisition pair is a
fatal `RuntimeError`; the incoming granule replaces the kept one iff both its
processing dates are `>=` the kept one's, the loser being appended to
`skipped_double_granules`; a fresh mid-date appends to both parallel lists. -/
def skip_step (st : DedupState) (r : GranuleRef) : Except String DedupState :=
  let m := mid_date r
  if st.url_mid_dates.contains m then
    let index := st.url_mid_dates.indexOf m
    let found := st.keep_urls.getD index default
    if r.acq1 ≠ found.acq1 ∨ r.acq2 ≠ found.acq2 then
      .error "Found duplicate granule that differs in acquisition time"
    else if found.proc1 ≤ r.proc1 ∧ found.proc2 ≤ r.proc2 then
      .ok { st with keep_urls := st.keep_urls.set index r,
                    skipped_double := st.skipped_double ++ [found] }
    else
      .ok { st with skipped_double := st.skipped_double ++ [r] }
  else
    .ok { st with url_mid_dates := st.url_mid_dates ++ [m],
                  keep_urls := st.keep_urls ++ [r] }

/-- The `for each_url in found_urls` loop of
`ITSCube.skip_duplicate_granules`, threading the loop state. -/
def dedup_go (st : DedupState) : List GranuleRef → Except String DedupState
  | [] => .ok st
  | r :: rest =>
    match skip_step st r with
    | .error e => .error e
    | .ok st1 => dedup_go st1 rest

/-- Embeds `ITSCube.skip_duplicate_granules`: returns the kept granules (the
function's return value `keep_urls`) together with the granules recorded in
`self.skipped_double_granules`. -/
def skip_duplicate_granules (refs : List GranuleRef) :
    Except String (List GranuleRef × List GranuleRef) :=
  match dedup_go emptyDedupState refs with
  | .error e => .error e
  | .ok st => .ok (st.keep_urls, st.skipped_double)

/-- First-match lookup of the kept granule for a mid-date (the meaning of
`keep_urls[url_mid_dates.index(mid_date)]` under the loop invariant). -/
def kept_for (keep : List GranuleRef) (m : Int) : Option GranuleRef :=
  keep.find? (fun k => mid_date k == m)

/-- Replace the first granule whose mid-date is `m` (the meaning of
`keep_urls[index] = each_url` under the loop invariant). -/
def set_first (keep : List GranuleRef) (m : Int) (r : GranuleRef) : List GranuleRef :=
  match keep with
  | [] => []
  | k :: ks => if mid_date k == m then r :: ks else k :: set_first ks m r

/-- Append a mid-date if it is not yet present (how `url_mid_dates` grows). -/
def insert_new (ms : List Int) (m : Int) : List Int :=
  if ms.contains m then ms else ms ++ [m]

/-- Strict component-wise dominance of processing timestamps. -/
def dominates (r s : GranuleRef) : Prop := s.proc1 < r.proc1 ∧ s.proc2 < r.proc2

instance (r s : GranuleRef) : Decidable (dominates r s) := by
  unfold dominates; infer_instance

/-- The alignment invariant of the two parallel lists of
`skip_duplicate_granules`. -/
def aligned (st : DedupState) : Prop :=
  st.url_mid_dates = st.keep_urls.map mid_date

/-- Candidate A of the spec scenario: acq1 = 2020-01-01 (day 0),
acq2 = 2020-01-10 (day 9), proc1 = proc2 = 2020-02-01 (day 31). -/
def scenarioA : GranuleRef := ⟨0, 0, 31, 9, 31⟩

/-- Candidate B of the spec scenario: same acquisition pair as A,
proc1 = proc2 = 2020-02-05 (day 35). -/
def scenarioB : GranuleRef := ⟨1, 0, 35, 9, 35⟩

/-- A granule whose two acquisition dates coincide on day 43200001. -/
def conflictR : GranuleRef := ⟨0, 43200001, 0, 43200001, 0⟩

/-- A granule with a 86400000-day separation whose derived mid-date collides
with `conflictR` although the acquisition pairs differ. -/
def conflictS : GranuleRef := ⟨1, 86400000, 0, 0, 0⟩

/-- No two granules of the list collide on a mid-date with different
acquisition pairs (the condition under which dedup cannot raise). -/
def pairs_consistent (l : List GranuleRef) : Prop :=
  ∀ r ∈ l, ∀ s ∈ l, mid_date r = mid_date s → acq_pair r = acq_pair s

/-- Within every equal-mid-date class of the list, distinct granules are
strictly comparable component-wise on their processing timestamps. -/
def proc_strictly_ordered (l : List GranuleRef) : Prop :=
  ∀ r ∈ l, ∀ s ∈ l, mid_date r = mid_date s → r ≠ s → dominates r s ∨ dominates s r

instance (l : List GranuleRef) : Decidable (pairs_consistent l) := by
  unfold pairs_consistent
  infer_instance

instance (l : List GranuleRef) : Decidable (proc_strictly_ordered l) := by
  unfold proc_strictly_ordered
  infer_instance

/-- Incomparable-pair candidate A: proc1 = 1, proc2 = 4. -/
def incompA : GranuleRef := ⟨0, 0, 1, 9, 4⟩

/-- Incomparable-pair candidate B: same acquisition pair as A, proc1 = 2,
proc2 = 3 — all four processing timestamps pairwise distinct, yet neither
granule dominates the other. -/
def incompB : GranuleRef := ⟨1, 0, 2, 9, 3⟩

/-- One sample of a granule's decoded grid: its x and y coordinate and the
primary measurement `v` at that position (`none` = missing / NaN). -/
abbrev Cell := Int × Int × Option Int

/-- The `Bounds` class of `grid.py`: min/max of one coordinate axis. -/
structure Bounds where
  min : Int
  max : Int
deriving DecidableEq, Repr

/-- The parts of the `ITSCube` instance that `preprocess_dataset` reads:
the target projection (`self.projection`) and the region bounds
(`self.x`, `self.y`). -/
structure CubeConfig where
  projection : Int
  x : Bounds
  y : Bounds
deriving DecidableEq, Repr

/-- The parts of a decoded granule dataset that `preprocess_dataset` reads:
`ds.UTM_Projection.spatial_epsg`, `ds.img_pair_info.date_center` (day
number), `ds.img_pair_info.date_dt` (whole days) and the `v` grid. -/
structure GranuleDataset where
  spatial_epsg : Int
  date_center : Int
  date_dt : Int
  cells : List Cell
deriving DecidableEq, Repr

/-- The region mask `(ds.x >= x.min) & (ds.x <= x.max) & (ds.y >= y.min) & (ds.y <= y.max)`. -/
def in_region (cube : CubeConfig) (c : Cell) : Bool :=
  decide (cube.x.min ≤ c.1) && decide (c.1 ≤ cube.x.max) &&
    decide (cube.y.min ≤ c.2.1) && decide (c.2.1 ≤ cube.y.max)

/-- The value returned by `ITSCube.preprocess_dataset`, in the order of the
Python `return` statement: `(empty, int(ds.UTM_Projection.spatial_epsg),
mid_date, ds_url, mask_data)`. -/
structure PreprocessResult where
  is_empty : Bool
  projection : Int
  mid_date : Option Int
  url : Nat
  data : Option (List Cell)
deriving DecidableEq, Repr

/-- Embeds `ITSCube.preprocess_dataset`: wrong-projection granules are rejected
before anything else; otherwise the grid is cropped to the region and
rejected as empty iff no in-region `v` sample is non-missing. -/
def preprocess_dataset (cube : CubeConfig) (ds : GranuleDataset) (ds_url : Nat) :
    PreprocessResult :=
  if ds.spatial_epsg = cube.projection then
    let m := ds.date_center * msPerDay + ds.date_dt
    let mask_data := ds.cells.filter (in_region cube)
    if mask_data.any (fun c => c.2.2.isSome) then
      ⟨false, ds.spatial_epsg, some m, ds_url, some mask_data⟩
    else
      ⟨true, ds.spatial_epsg, none, ds_url, none⟩
  else
    ⟨false, ds.spatial_epsg, none, ds_url, none⟩

/-- The accumulator state `ITSCube.add_layer` mutates: the accepted dates,
layers and urls, and the two skip registries. -/
structure AccumState where
  dates : List (Option Int)
  ds : List (List Cell)
  urls : List Nat
  skipped_empty_granules : List Nat
  skipped_proj_granules : List (Int × List Nat)
deriving DecidableEq, Repr

/-- The empty accumulator (a fresh `ITSCube` after `clear`). -/
def emptyAccum : AccumState := ⟨[], [], [], [], []⟩

/-- Python `dict.setdefault(key, []).append(u)` on the wrong-projection registry. -/
def set_default_append (m : List (Int × List Nat)) (k : Int) (u : Nat) :
    List (Int × List Nat) :=
  match m with
  | [] => [(k, [u])]
  | (k', us) :: rest =>
    if k' = k then (k', us ++ [u]) :: rest else (k', us) :: set_default_append rest k u

/-- Embeds `ITSCube.add_layer`: a result carrying data is appended to the cube
lists; otherwise the url goes to the empty registry if `is_empty`, else to
the wrong-projection registry under the source projection id. -/
def add_layer (st : AccumState) (r : PreprocessResult) : AccumState :=
  match r.data with
  | some d =>
    { st with dates := st.dates ++ [r.mid_date], ds := st.ds ++ [d],
              urls := st.urls ++ [r.url] }
  | none =>
    if r.is_empty then
      { st with skipped_empty_granules := st.skipped_empty_granules ++ [r.url] }
    else
      { st with skipped_proj_granules :=
          set_default_append st.skipped_proj_granules r.projection r.url }

/-- Processing one batch: `preprocess_dataset` then `add_layer` for each
granule, in order (the per-batch loop of `create` / `create_parallel`). -/
def process_batch (cube : CubeConfig) (st : AccumState)
    (batch : List (GranuleDataset × Nat)) : AccumState :=
  batch.foldl (fun acc gz => add_layer acc (preprocess_dataset cube gz.1 gz.2)) st

/-- A concrete grid with one in-region non-missing sample. -/
def gridGood : GranuleDataset := ⟨32628, 18262, 9, [(0, 0, some 5)]⟩

/-- A concrete grid in a foreign projection. -/
def gridWrong : GranuleDataset := ⟨32629, 18262, 9, [(0, 0, some 5)]⟩

/-- The concrete cube configuration for the witnesses. -/
def cube0 : CubeConfig := ⟨32628, ⟨-10, 10⟩, ⟨-10, 10⟩⟩

/-- Embeds `ITSCube.get_dates_from_filename`: the filename is tokenised on
underscores and the four `%Y%m%d` date tokens sit at positions 3, 4, 11 and
12 (acquisition 1, processing 1, acquisition 2, processing 2).  A missing or
unparsable token is a fatal parse failure, modelled as `none`. -/
def get_dates_from_filename (tokens : List Int) : Option (Int × Int × Int × Int) :=
  match tokens.get? 3, tokens.get? 4, tokens.get? 11, tokens.get? 12 with
  | some a1, some p1, some a2, some p2 => some (a1, p1, a2, p2)
  | _, _, _, _ => none

/-- The calendar mid-point `acq2 + day_separation/2` in milliseconds
(half-day resolution). -/
def calendar_mid_date (r : GranuleRef) : Int :=
  r.acq2 * msPerDay + day_separation r * (msPerDay / 2)

/-- Tokens of the sample filename
`LC08_L1TP_011002_20150821_20170405_01_T1_X_LC08_L1TP_011002_20150720_20170406_01_T1_G0240V01_P038.nc`,
with the date tokens as day numbers and all others as 0. -/
def sampleTokens : List Int := [0, 0, 0, 16668, 17261, 0, 0, 0, 0, 0, 0, 16636, 17262, 0, 0, 0]

/-- One data variable of a granule dataset: its attribute map.  Attribute
values are the scalars read by `ds[var].attrs[attr][0]`. -/
structure DataVar where
  attrs : List (String × Int)
deriving DecidableEq, Repr

/-- The part of an `xr.Dataset` that `get_data_var_attr` reads: the named
data variables. -/
structure XrDataset where
  data_vars : List (String × DataVar)
deriving DecidableEq, Repr

/-- Embeds `ITSCube.get_data_var_attr`: return the attribute value if the variable
exists and carries the attribute; else the caller-supplied default; with no
default (`missing_value is None`) a missing attribute raises a
`RuntimeError`. -/
def get_data_var_attr (ds : XrDataset) (var_name attr_name : String)
    (missing_value_arg : Option Int) : Except String Int :=
  match ds.data_vars.lookup var_name with
  | some dv =>
    match dv.attrs.lookup attr_name with
    | some v => .ok v
    | none =>
      match missing_value_arg with
      | none => .error (attr_name ++ " is expected within " ++ var_name)
      | some mv => .ok mv
  | none =>
    match missing_value_arg with
    | none => .error (attr_name ++ " is expected within " ++ var_name)
    | some mv => .ok mv

/-- Whether the variable exists and carries the attribute
(`var_name in ds and attr_name in ds[var_name].attrs`). -/
def has_attr (ds : XrDataset) (var_name attr_name : String) : Bool :=
  match ds.data_vars.lookup var_name with
  | some dv => (dv.attrs.lookup attr_name).isSome
  | none => false

/-- A concrete dataset: variable `vx` carries attribute `stable_shift` with
value 3 and nothing else. -/
def ds0 : XrDataset := ⟨[("vx", ⟨[("stable_shift", 3)]⟩)]⟩

/-- The constant `DataVars.MISSING_VALUE`. -/
def MISSING_VALUE : Int := -32767

/-- The constant `DataVars.MISSING_BYTE`. -/
def MISSING_BYTE : Int := 0

/-- The per-variable `missing_value` attributes `combine_layers` attaches to
the batch table: set only when `is_first_write` (for `v`,
`map_scale_corrected`, `vx`, `vy`, `v_error`), otherwise nothing. -/
def missing_value_attrs (is_first_write : Bool) : List (String × Int) :=
  if is_first_write then
    [("v", MISSING_VALUE), ("map_scale_corrected", MISSING_BYTE),
     ("vx", MISSING_VALUE), ("vy", MISSING_VALUE), ("v_error", MISSING_VALUE)]
  else []

/-- The `encoding_settings` passed to `to_zarr`: per-variable `_FillValue`
encodings, built only in the first-write branch of `combine_layers`. -/
def encoding_settings (is_first_write : Bool) : List (String × Int) :=
  if is_first_write then
    [("v", MISSING_VALUE), ("map_scale_corrected", MISSING_BYTE),
     ("vx", MISSING_VALUE), ("vx_error", MISSING_VALUE),
     ("vy", MISSING_VALUE), ("vy_error", MISSING_VALUE),
     ("v_error", MISSING_VALUE)]
  else []

/-- The on-disk Zarr store's fixed metadata: per-variable `missing_value`
attributes and `_FillValue` encodings, both established at creation. -/
structure ZarrStore where
  attrs : List (String × Int)
  encodings : List (String × Int)
deriving DecidableEq, Repr

/-- Models `xr.Dataset.to_zarr`: create mode writes a fresh store with the given
attributes and encodings; append mode leaves the store's metadata untouched
and fails with `ValueError: failed to prevent overwriting existing key`
when the appended table re-asserts an attribute key the store already
holds. -/
def to_zarr (store : Option ZarrStore) (is_first_write : Bool)
    (layer_attrs : List (String × Int)) (enc : List (String × Int)) :
    Except String ZarrStore :=
  if is_first_write then .ok ⟨layer_attrs, enc⟩
  else
    match store with
    | none => .error "store does not exist"
    | some s =>
      if layer_attrs.any (fun a => s.attrs.any (fun b => b.1 = a.1)) then
        .error "failed to prevent overwriting existing key missing_value in attrs"
      else .ok { s with attrs := s.attrs ++ layer_attrs }

/-- The metadata effect of one `combine_layers` call: attach the
first-write-only attributes and write (create or append) the batch. -/
def combine_layers (store : Option ZarrStore) (is_first_write : Bool) :
    Except String ZarrStore :=
  to_zarr store is_first_write (missing_value_attrs is_first_write)
    (encoding_settings is_first_write)

/-- The driver of `create` / `create_parallel`: batch 0 is the first write,
every later batch is an append. -/
def write_batches : Nat → Except String (Option ZarrStore)
  | 0 => .ok none
  | n + 1 =>
    match write_batches n with
    | .error e => .error e
    | .ok store =>
      match combine_layers store (decide (n = 0)) with
      | .error e => .error e
      | .ok s => .ok (some s)

/-- The constant `ITSCube.NUM_GRANULES_TO_WRITE`. -/
def NUM_GRANULES_TO_WRITE : Nat := 1000

/-- Embeds `ITSCube.request_granules`: raises `RuntimeError` when the search API
returned zero granule URLs — before the optional truncation to the first
`num_granules` (a Python-falsy 0 or `None` means no truncation) and before
duplicate resolution. -/
def request_granules (found_urls : List GranuleRef) (num_granules : Option Nat) :
    Except String (List GranuleRef × List GranuleRef) :=
  if found_urls.length = 0 then
    .error "No granules are found for the search API parameters"
  else
    let urls :=
      match num_granules with
      | some n => if n = 0 then found_urls else found_urls.take n
      | none => found_urls
    skip_duplicate_granules urls

/-- Number of fixed-size write batches over `n` deduplicated granules (the
`while num_to_process > 0` loop of `create_parallel`). -/
def num_batches (n : Nat) : Nat := (n + NUM_GRANULES_TO_WRITE - 1) / NUM_GRANULES_TO_WRITE

/-- The run skeleton of `ITSCube.create`: request (and dedup) the granules,
then fetch each kept granule and write it in batches.  The result records
the outcome together with the number of granules fetched and the number of
batches written (both 0 when the run aborts in `request_granules`). -/
def create_run (found_urls : List GranuleRef) (num_granules : Option Nat) :
    Except String Unit × Nat × Nat :=
  match request_granules found_urls num_granules with
  | .error e => (.error e, 0, 0)
  | .ok (keep, _) => (.ok (), keep.length, num_batches keep.length)

/-! ## Theorems -/

theorem aligned_empty : aligned emptyDedupState := rfl

theorem indexOf_lookup (keep : List GranuleRef) (m : Int)
    (h : m ∈ keep.map mid_date) :
    keep.getD ((keep.map mid_date).indexOf m) default = (kept_for keep m).getD default ∧
    ∀ r : GranuleRef, keep.set ((keep.map mid_date).indexOf m) r = set_first keep m r := by
  induction keep with
  | nil => simp at h
  | cons k ks ih =>
    by_cases hk : mid_date k = m
    · have hidx : (List.map mid_date (k :: ks)).indexOf m = 0 := by
        rw [List.map_cons]; exact List.indexOf_cons_eq _ hk
      have hfind : kept_for (k :: ks) m = some k := by
        unfold kept_for
        rw [List.find?_cons_of_pos _ (by simp [hk])]
      rw [hidx, hfind]
      refine ⟨rfl, fun r => ?_⟩
      show r :: ks = set_first (k :: ks) m r
      unfold set_first
      rw [if_pos (by simp [hk])]
    · have hm : m ∈ ks.map mid_date := by
        simp only [List.map_cons, List.mem_cons] at h
        exact h.resolve_left (fun hh => hk hh.symm)
      obtain ⟨ih1, ih2⟩ := ih hm
      have hidx : (List.map mid_date (k :: ks)).indexOf m =
          ((List.map mid_date ks).indexOf m) + 1 := by
        rw [List.map_cons]; exact List.indexOf_cons_ne _ hk
      have hfind : kept_for (k :: ks) m = kept_for ks m := by
        unfold kept_for
        rw [List.find?_cons_of_neg _ (by simp [hk])]
      rw [hidx, hfind]
      refine ⟨ih1, fun r => ?_⟩
      show k :: ks.set ((List.map mid_date ks).indexOf m) r = set_first (k :: ks) m r
      unfold set_first
      rw [if_neg (by simp [hk]), ih2 r]

theorem contains_iff_kept (keep : List GranuleRef) (m : Int) :
    (keep.map mid_date).contains m = true ↔ ∃ k, kept_for keep m = some k := by
  induction keep with
  | nil => simp [kept_for]
  | cons k ks ih =>
    by_cases hk : mid_date k = m
    · have hfind : kept_for (k :: ks) m = some k := by
        unfold kept_for
        rw [List.find?_cons_of_pos _ (by simp [hk])]
      simp [hfind, hk]
    · have hfind : kept_for (k :: ks) m = kept_for ks m := by
        unfold kept_for
        rw [List.find?_cons_of_neg _ (by simp [hk])]
      rw [hfind, ← ih]
      simp [Ne.symm hk]

/-- Characterisation of one loop iteration in terms of first-match lookup,
valid under the parallel-list alignment invariant. -/
theorem skip_step_char (st : DedupState) (r : GranuleRef) (hI : aligned st) :
    skip_step st r =
      match kept_for st.keep_urls (mid_date r) with
      | none => .ok ⟨st.url_mid_dates ++ [mid_date r], st.keep_urls ++ [r],
                     st.skipped_double⟩
      | some found =>
        if r.acq1 ≠ found.acq1 ∨ r.acq2 ≠ found.acq2 then
          .error "Found duplicate granule that differs in acquisition time"
        else if found.proc1 ≤ r.proc1 ∧ found.proc2 ≤ r.proc2 then
          .ok ⟨st.url_mid_dates, set_first st.keep_urls (mid_date r) r,
               st.skipped_double ++ [found]⟩
        else
          .ok ⟨st.url_mid_dates, st.keep_urls, st.skipped_double ++ [r]⟩ := by
  unfold skip_step
  rcases hfind : kept_for st.keep_urls (mid_date r) with _ | found
  · have hc : st.url_mid_dates.contains (mid_date r) = false := by
      rw [hI]
      by_contra hcc
      have := (contains_iff_kept st.keep_urls (mid_date r)).mp
        (by simpa using hcc)
      rw [hfind] at this
      exact absurd this (by simp)
    simp only [hc]
    rfl
  · have hc : st.url_mid_dates.contains (mid_date r) = true := by
      rw [hI]
      exact (contains_iff_kept st.keep_urls (mid_date r)).mpr ⟨found, hfind⟩
    have hmem : mid_date r ∈ st.keep_urls.map mid_date := by
      have := hc
      rw [hI] at this
      simpa using this
    obtain ⟨h1, h2⟩ := indexOf_lookup st.keep_urls (mid_date r) hmem
    have hidx : st.url_mid_dates.indexOf (mid_date r) =
        (st.keep_urls.map mid_date).indexOf (mid_date r) := by rw [hI]
    simp only [hc, if_true, hidx, h1, h2, hfind, Option.getD_some]

/-- C1: when an incoming granule collides on the mid-date with the currently
kept granule and has the same acquisition pair, it replaces the kept one iff
both its processing dates are ≥ the kept one's, the loser being appended to
the double-granule skip list; in the spec scenario [A, B] the run keeps B,
skips A, and the kept count is 1. -/
theorem skip_duplicate_tie_break (st : DedupState) (r : GranuleRef)
    (hmem : st.url_mid_dates.contains (mid_date r) = true)
    (hpair :
      r.acq1 = (st.keep_urls.getD (st.url_mid_dates.indexOf (mid_date r)) default).acq1 ∧
      r.acq2 = (st.keep_urls.getD (st.url_mid_dates.indexOf (mid_date r)) default).acq2) :
    (let found := st.keep_urls.getD (st.url_mid_dates.indexOf (mid_date r)) default
     (found.proc1 ≤ r.proc1 ∧ found.proc2 ≤ r.proc2 →
        skip_step st r = .ok ⟨st.url_mid_dates,
          st.keep_urls.set (st.url_mid_dates.indexOf (mid_date r)) r,
          st.skipped_double ++ [found]⟩) ∧
     (¬ (found.proc1 ≤ r.proc1 ∧ found.proc2 ≤ r.proc2) →
        skip_step st r = .ok ⟨st.url_mid_dates, st.keep_urls,
          st.skipped_double ++ [r]⟩)) ∧
    skip_duplicate_granules [scenarioA, scenarioB] = .ok ([scenarioB], [scenarioA]) ∧
    (skip_duplicate_granules [scenarioA, scenarioB]).map (fun p => p.1.length) = .ok 1 := by
  refine ⟨⟨?_, ?_⟩, by rfl, by rfl⟩
  · intro hproc
    unfold skip_step
    simp only [hmem, if_true]
    rw [if_neg (by push_neg; exact hpair), if_pos hproc]
  · intro hproc
    unfold skip_step
    simp only [hmem, if_true]
    rw [if_neg (by push_neg; exact hpair), if_neg hproc]

/-- Witness for C1 at a concrete loop state. -/
theorem skip_duplicate_tie_break_witness :
    skip_step ⟨[mid_date scenarioA], [scenarioA], []⟩ scenarioB =
      .ok ⟨[mid_date scenarioA], [scenarioB], [scenarioA]⟩ := by
  have h := (skip_duplicate_tie_break ⟨[mid_date scenarioA], [scenarioA], []⟩ scenarioB
    (by decide) (by decide)).1.1 (by decide)
  simpa using h

theorem map_mid_set_first (keep : List GranuleRef) {m : Int} {r : GranuleRef}
    (hr : mid_date r = m) :
    (set_first keep m r).map mid_date = keep.map mid_date := by
  induction keep with
  | nil => rfl
  | cons k ks ih =>
    unfold set_first
    by_cases hk : mid_date k = m
    · rw [if_pos (by simp [hk])]
      simp [hr, hk]
    · rw [if_neg (by simp [hk])]
      simp [ih]

theorem kept_for_set_first_self (keep : List GranuleRef) {m : Int} {r found : GranuleRef}
    (hfind : kept_for keep m = some found) (hr : mid_date r = m) :
    kept_for (set_first keep m r) m = some r := by
  induction keep with
  | nil => simp [kept_for] at hfind
  | cons k ks ih =>
    unfold set_first
    by_cases hk : mid_date k = m
    · rw [if_pos (by simp [hk])]
      unfold kept_for
      rw [List.find?_cons_of_pos _ (by simp [hr])]
    · rw [if_neg (by simp [hk])]
      have hfind' : kept_for ks m = some found := by
        unfold kept_for at hfind
        rwa [List.find?_cons_of_neg _ (by simp [hk])] at hfind
      unfold kept_for
      rw [List.find?_cons_of_neg _ (by simp [hk])]
      exact ih hfind'

theorem kept_for_set_first_other (keep : List GranuleRef) {m m' : Int} {r : GranuleRef}
    (hr : mid_date r = m) (hne : m' ≠ m) :
    kept_for (set_first keep m r) m' = kept_for keep m' := by
  induction keep with
  | nil => rfl
  | cons k ks ih =>
    unfold set_first
    by_cases hk : mid_date k = m
    · rw [if_pos (by simp [hk])]
      unfold kept_for
      rw [List.find?_cons_of_neg _ (by simp [hr]; exact Ne.symm hne),
          List.find?_cons_of_neg _ (by simp [hk]; exact Ne.symm hne)]
    · rw [if_neg (by simp [hk])]
      unfold kept_for
      by_cases hk' : mid_date k = m'
      · rw [List.find?_cons_of_pos _ (by simp [hk']),
            List.find?_cons_of_pos _ (by simp [hk'])]
      · rw [List.find?_cons_of_neg _ (by simp [hk']),
            List.find?_cons_of_neg _ (by simp [hk'])]
        exact ih

theorem kept_for_append_of_some {keep : List GranuleRef} {m : Int} {k : GranuleRef}
    (h : kept_for keep m = some k) (r : GranuleRef) :
    kept_for (keep ++ [r]) m = some k := by
  unfold kept_for at h ⊢
  rw [List.find?_append, h]
  rfl

theorem kept_for_append_of_none {keep : List GranuleRef} {m : Int}
    (h : kept_for keep m = none) (r : GranuleRef) :
    kept_for (keep ++ [r]) m = if mid_date r = m then some r else none := by
  unfold kept_for at h ⊢
  rw [List.find?_append, h]
  by_cases hr : mid_date r = m
  · rw [if_pos hr, List.find?_cons_of_pos _ (by simp [hr])]
    rfl
  · rw [if_neg hr, List.find?_cons_of_neg _ (by simp [hr])]
    rfl

theorem set_first_perm {keep : List GranuleRef} {m : Int} {found : GranuleRef}
    (hfind : kept_for keep m = some found) (r : GranuleRef) :
    List.Perm (set_first keep m r ++ [found]) (keep ++ [r]) := by
  induction keep with
  | nil => simp [kept_for] at hfind
  | cons k ks ih =>
    by_cases hk : mid_date k = m
    · have hf : found = k := by
        unfold kept_for at hfind
        rw [List.find?_cons_of_pos _ (by simp [hk])] at hfind
        exact (Option.some.inj hfind).symm
      subst hf
      unfold set_first
      rw [if_pos (by simp [hk])]
      show List.Perm (r :: (ks ++ [found])) (found :: (ks ++ [r]))
      exact ((List.Perm.cons r (List.perm_append_singleton found ks)).trans
        (List.Perm.swap found r ks)).trans
        (List.Perm.cons found (List.perm_append_singleton r ks).symm)
    · unfold set_first
      rw [if_neg (by simp [hk])]
      have hfind' : kept_for ks m = some found := by
        unfold kept_for at hfind
        rwa [List.find?_cons_of_neg _ (by simp [hk])] at hfind
      show List.Perm (k :: (set_first ks m r ++ [found])) (k :: (ks ++ [r]))
      exact List.Perm.cons k (ih hfind')

theorem contains_of_kept {st : DedupState} {m : Int} {k : GranuleRef}
    (hI : aligned st) (h : kept_for st.keep_urls m = some k) :
    st.url_mid_dates.contains m = true := by
  rw [hI]
  exact (contains_iff_kept st.keep_urls m).mpr ⟨k, h⟩

theorem not_contains_of_not_kept {st : DedupState} {m : Int}
    (hI : aligned st) (h : kept_for st.keep_urls m = none) :
    st.url_mid_dates.contains m = false := by
  rw [hI]
  by_contra hc
  obtain ⟨k, hk⟩ := (contains_iff_kept st.keep_urls m).mp (by simpa using hc)
  rw [h] at hk
  cases hk

/-- All the state facts one accepted loop iteration provides: the parallel
lists stay aligned, the mid-date list grows by `insert_new`, and kept plus
skipped granules form a permutation of the previous ones plus the incoming
granule. -/
theorem skip_step_ok_facts {st st1 : DedupState} {r : GranuleRef}
    (hI : aligned st) (hok : skip_step st r = .ok st1) :
    aligned st1 ∧
    st1.url_mid_dates = insert_new st.url_mid_dates (mid_date r) ∧
    List.Perm (st1.keep_urls ++ st1.skipped_double)
      ((st.keep_urls ++ st.skipped_double) ++ [r]) := by
  rw [skip_step_char st r hI] at hok
  rcases hfind : kept_for st.keep_urls (mid_date r) with _ | found <;>
    simp only [hfind] at hok
  · cases hok
    have hc := not_contains_of_not_kept hI hfind
    refine ⟨?_, ?_, ?_⟩
    · show st.url_mid_dates ++ [mid_date r] = (st.keep_urls ++ [r]).map mid_date
      rw [List.map_append, ← hI]
      rfl
    · unfold insert_new
      rw [if_neg (by simpa using hc)]
    · show List.Perm ((st.keep_urls ++ [r]) ++ st.skipped_double)
        ((st.keep_urls ++ st.skipped_double) ++ [r])
      rw [List.append_assoc, List.append_assoc]
      exact List.Perm.append_left st.keep_urls List.perm_append_comm
  · have hc := contains_of_kept hI hfind
    by_cases hpair : r.acq1 ≠ found.acq1 ∨ r.acq2 ≠ found.acq2
    · rw [if_pos hpair] at hok
      cases hok
    · rw [if_neg hpair] at hok
      by_cases hproc : found.proc1 ≤ r.proc1 ∧ found.proc2 ≤ r.proc2
      · rw [if_pos hproc] at hok
        cases hok
        refine ⟨?_, ?_, ?_⟩
        · show st.url_mid_dates = (set_first st.keep_urls (mid_date r) r).map mid_date
          rw [map_mid_set_first st.keep_urls rfl]
          exact hI
        · unfold insert_new
          rw [if_pos hc]
        · show List.Perm
            (set_first st.keep_urls (mid_date r) r ++ (st.skipped_double ++ [found]))
            ((st.keep_urls ++ st.skipped_double) ++ [r])
          have p1 : List.Perm
              (set_first st.keep_urls (mid_date r) r ++ (st.skipped_double ++ [found]))
              ((set_first st.keep_urls (mid_date r) r ++ [found]) ++ st.skipped_double) := by
            rw [List.append_assoc]
            exact List.Perm.append_left _ List.perm_append_comm
          have p2 : List.Perm
              ((set_first st.keep_urls (mid_date r) r ++ [found]) ++ st.skipped_double)
              ((st.keep_urls ++ [r]) ++ st.skipped_double) :=
            List.Perm.append_right _ (set_first_perm hfind r)
          have p3 : List.Perm ((st.keep_urls ++ [r]) ++ st.skipped_double)
              ((st.keep_urls ++ st.skipped_double) ++ [r]) := by
            rw [List.append_assoc, List.append_assoc]
            exact List.Perm.append_left _ List.perm_append_comm
          exact (p1.trans p2).trans p3
      · rw [if_neg hproc] at hok
        cases hok
        refine ⟨hI, ?_, ?_⟩
        · unfold insert_new
          rw [if_pos hc]
        · show List.Perm (st.keep_urls ++ (st.skipped_double ++ [r]))
            ((st.keep_urls ++ st.skipped_double) ++ [r])
          rw [List.append_assoc]

/-- Fold-level facts of the dedup loop: alignment, the evolution of
`url_mid_dates`, and that kept plus skipped granules are a permutation of the
initial contents plus the whole input. -/
theorem dedup_go_facts {l : List GranuleRef} {st st' : DedupState}
    (hI : aligned st) (hok : dedup_go st l = .ok st') :
    aligned st' ∧
    st'.url_mid_dates = (l.map mid_date).foldl insert_new st.url_mid_dates ∧
    List.Perm (st'.keep_urls ++ st'.skipped_double)
      ((st.keep_urls ++ st.skipped_double) ++ l) := by
  induction l generalizing st with
  | nil =>
    simp only [dedup_go] at hok
    cases hok
    exact ⟨hI, rfl, by simp⟩
  | cons r rest ih =>
    simp only [dedup_go] at hok
    rcases hstep : skip_step st r with e | st1 <;> rw [hstep] at hok
    · cases hok
    · obtain ⟨h1, h2, h3⟩ := skip_step_ok_facts hI hstep
      obtain ⟨g1, g2, g3⟩ := ih h1 hok
      refine ⟨g1, ?_, ?_⟩
      · rw [List.map_cons, List.foldl_cons, ← h2]
        exact g2
      · have e2 := g3.trans (List.Perm.append_right rest h3)
        rwa [List.append_assoc, List.singleton_append] at e2

theorem nodup_foldl_insert_new (l : List Int) (ms : List Int) (h : ms.Nodup) :
    (l.foldl insert_new ms).Nodup := by
  induction l generalizing ms with
  | nil => exact h
  | cons m rest ih =>
    rw [List.foldl_cons]
    apply ih
    unfold insert_new
    by_cases hc : ms.contains m
    · rw [if_pos hc]
      exact h
    · rw [if_neg hc]
      have hm : m ∉ ms := by
        intro hmem
        exact hc (List.elem_iff.mpr hmem)
      simp [List.nodup_append, h, hm]

theorem mem_foldl_insert_new (l ms : List Int) (m : Int) :
    m ∈ l.foldl insert_new ms ↔ m ∈ ms ∨ m ∈ l := by
  induction l generalizing ms with
  | nil => simp
  | cons a rest ih =>
    rw [List.foldl_cons, ih]
    unfold insert_new
    by_cases hc : ms.contains a
    · rw [if_pos hc]
      have hmem : a ∈ ms := List.elem_iff.mp hc
      constructor
      · rintro (h | h)
        · exact Or.inl h
        · exact Or.inr (List.mem_cons_of_mem a h)
      · rintro (h | h)
        · exact Or.inl h
        · rcases List.mem_cons.mp h with rfl | h
          · exact Or.inl hmem
          · exact Or.inr h
    · rw [if_neg hc]
      simp only [List.mem_append, List.mem_cons, List.mem_singleton]
      tauto

/-- C10: when duplicate resolution completes without raising, the kept list
plus the double-granule skip list is a permutation of the input (so their
lengths add up to the input length and every input granule lands in exactly
one of the two), the kept granules' mid-dates follow the relative input order
of the first occurrences of each mid-date, and those mid-dates are pairwise
distinct. -/
theorem skip_duplicate_partition (refs kept skipped : List GranuleRef)
    (h : skip_duplicate_granules refs = .ok (kept, skipped)) :
    List.Perm (kept ++ skipped) refs ∧
    kept.length + skipped.length = refs.length ∧
    kept.map mid_date = (refs.map mid_date).foldl insert_new [] ∧
    (kept.map mid_date).Nodup := by
  unfold skip_duplicate_granules at h
  rcases hgo : dedup_go emptyDedupState refs with e | st <;> rw [hgo] at h
  · cases h
  · have hp : st.keep_urls = kept ∧ st.skipped_double = skipped := by
      cases h
      exact ⟨rfl, rfl⟩
    obtain ⟨hk, hs⟩ := hp
    obtain ⟨hA, hMids, hPerm⟩ := dedup_go_facts aligned_empty hgo
    rw [hk, hs] at hPerm
    have hPerm' : List.Perm (kept ++ skipped) refs := by simpa using hPerm
    refine ⟨hPerm', ?_, ?_, ?_⟩
    · have := hPerm'.length_eq
      simpa using this
    · rw [← hk, ← hA]
      exact hMids
    · rw [← hk, ← hA, hMids]
      exact nodup_foldl_insert_new _ _ List.nodup_nil

/-- Witness for C10 on the concrete two-element scenario input. -/
theorem skip_duplicate_partition_witness :
    List.Perm ([scenarioB] ++ [scenarioA]) [scenarioA, scenarioB] ∧
    [scenarioB].length + [scenarioA].length = [scenarioA, scenarioB].length ∧
    [scenarioB].map mid_date = ([scenarioA, scenarioB].map mid_date).foldl insert_new [] ∧
    ([scenarioB].map mid_date).Nodup :=
  skip_duplicate_partition [scenarioA, scenarioB] [scenarioB] [scenarioA] rfl

/-- Through any successful run of the dedup loop, the acquisition pair of the
kept granule for a given mid-date never changes, and every processed granule
has a kept granule with its acquisition pair at its mid-date. -/
theorem dedup_go_pairs {l : List GranuleRef} {st st' : DedupState}
    (hI : aligned st) (hok : dedup_go st l = .ok st') :
    (∀ m k, kept_for st.keep_urls m = some k →
      ∃ k', kept_for st'.keep_urls m = some k' ∧ acq_pair k' = acq_pair k) ∧
    (∀ r ∈ l, ∃ k', kept_for st'.keep_urls (mid_date r) = some k' ∧
      acq_pair k' = acq_pair r) := by
  induction l generalizing st with
  | nil =>
    simp only [dedup_go] at hok
    cases hok
    exact ⟨fun m k h => ⟨k, h, rfl⟩, by simp⟩
  | cons r rest ih =>
    simp only [dedup_go] at hok
    rcases hstep : skip_step st r with e | st1 <;> rw [hstep] at hok
    · cases hok
    · have hI1 := (skip_step_ok_facts hI hstep).1
      obtain ⟨ih1, ih2⟩ := ih hI1 hok
      have hstep_kept : (∀ m k, kept_for st.keep_urls m = some k →
          ∃ k1, kept_for st1.keep_urls m = some k1 ∧ acq_pair k1 = acq_pair k) ∧
          (∃ k1, kept_for st1.keep_urls (mid_date r) = some k1 ∧
            acq_pair k1 = acq_pair r) := by
        rw [skip_step_char st r hI] at hstep
        rcases hfind : kept_for st.keep_urls (mid_date r) with _ | found <;>
          simp only [hfind] at hstep
        · cases hstep
          constructor
          · intro m k h
            refine ⟨k, ?_, rfl⟩
            show kept_for (st.keep_urls ++ [r]) m = some k
            exact kept_for_append_of_some h r
          · refine ⟨r, ?_, rfl⟩
            show kept_for (st.keep_urls ++ [r]) (mid_date r) = some r
            rw [kept_for_append_of_none hfind r, if_pos rfl]
        · by_cases hpair : r.acq1 ≠ found.acq1 ∨ r.acq2 ≠ found.acq2
          · rw [if_pos hpair] at hstep
            cases hstep
          · rw [if_neg hpair] at hstep
            push_neg at hpair
            have hpe : acq_pair found = acq_pair r := by
              unfold acq_pair
              rw [hpair.1, hpair.2]
            by_cases hproc : found.proc1 ≤ r.proc1 ∧ found.proc2 ≤ r.proc2
            · rw [if_pos hproc] at hstep
              cases hstep
              constructor
              · intro m k h
                by_cases hm : m = mid_date r
                · subst hm
                  have hkf : k = found := by
                    rw [h] at hfind
                    exact Option.some.inj hfind
                  refine ⟨r, ?_, ?_⟩
                  · show kept_for (set_first st.keep_urls (mid_date r) r) (mid_date r) =
                      some r
                    exact kept_for_set_first_self _ h rfl
                  · rw [hkf, ← hpe]
                · refine ⟨k, ?_, rfl⟩
                  show kept_for (set_first st.keep_urls (mid_date r) r) m = some k
                  rw [kept_for_set_first_other _ rfl hm]
                  exact h
              · refine ⟨r, ?_, rfl⟩
                show kept_for (set_first st.keep_urls (mid_date r) r) (mid_date r) = some r
                exact kept_for_set_first_self _ hfind rfl
            · rw [if_neg hproc] at hstep
              cases hstep
              exact ⟨fun m k h => ⟨k, h, rfl⟩, ⟨found, hfind, hpe⟩⟩
      obtain ⟨hsk1, hsk2⟩ := hstep_kept
      constructor
      · intro m k h
        obtain ⟨k1, hk1, hpk1⟩ := hsk1 m k h
        obtain ⟨k', hk', hpk'⟩ := ih1 m k1 hk1
        exact ⟨k', hk', hpk'.trans hpk1⟩
      · intro r' hr'
        rcases List.mem_cons.mp hr' with rfl | hr'
        · obtain ⟨k1, hk1, hpk1⟩ := hsk2
          obtain ⟨k', hk', hpk'⟩ := ih1 _ k1 hk1
          exact ⟨k', hk', hpk'.trans hpk1⟩
        · exact ih2 r' hr'

/-- C2: two input granules with equal derived mid-dates but different
acquisition pairs make duplicate resolution fail with the fatal
`RuntimeError`; it never silently keeps one of the two. -/
theorem skip_duplicate_conflict (refs : List GranuleRef) (r s : GranuleRef)
    (hr : r ∈ refs) (hs : s ∈ refs) (hmid : mid_date r = mid_date s)
    (hpair : acq_pair r ≠ acq_pair s) :
    ∃ e, skip_duplicate_granules refs = .error e := by
  unfold skip_duplicate_granules
  rcases hgo : dedup_go emptyDedupState refs with e | st
  · exact ⟨e, rfl⟩
  · exfalso
    obtain ⟨-, hmem⟩ := dedup_go_pairs aligned_empty hgo
    obtain ⟨k1, hk1, hp1⟩ := hmem r hr
    obtain ⟨k2, hk2, hp2⟩ := hmem s hs
    rw [hmid, hk2] at hk1
    have hk12 : k2 = k1 := Option.some.inj hk1
    rw [hk12] at hp2
    exact hpair (hp1.symm.trans hp2)

/-- Witness for C2: the two concrete colliding granules make the run fail. -/
theorem skip_duplicate_conflict_witness :
    ∃ e, skip_duplicate_granules [conflictR, conflictS] = .error e :=
  skip_duplicate_conflict [conflictR, conflictS] conflictR conflictS
    (by decide) (by decide) (by decide) (by decide)

/-- Under pair-consistency the dedup loop never raises. -/
theorem dedup_go_ok (l : List GranuleRef) (ctx : List GranuleRef) :
    ∀ (processed : List GranuleRef) (st : DedupState), aligned st →
    (∀ p ∈ processed, p ∈ ctx) → (∀ p ∈ l, p ∈ ctx) →
    (∀ m k, kept_for st.keep_urls m = some k → k ∈ processed ∧ mid_date k = m) →
    (∀ r ∈ ctx, ∀ s ∈ ctx, mid_date r = mid_date s → acq_pair r = acq_pair s) →
    ∃ st', dedup_go st l = .ok st' := by
  induction l with
  | nil => exact fun _ st _ _ _ _ _ => ⟨st, rfl⟩
  | cons r rest ih =>
    intro processed st hI hsub1 hsub2 hkmem H1
    have hrctx : r ∈ ctx := hsub2 r (List.mem_cons_self r rest)
    have hstep : ∃ st1, skip_step st r = .ok st1 ∧
        (∀ m k, kept_for st1.keep_urls m = some k →
          k ∈ processed ++ [r] ∧ mid_date k = m) := by
      rw [skip_step_char st r hI]
      rcases hfind : kept_for st.keep_urls (mid_date r) with _ | found <;>
        simp only [hfind]
      · refine ⟨_, rfl, ?_⟩
        intro m k h
        replace h : kept_for (st.keep_urls ++ [r]) m = some k := h
        rcases hkm : kept_for st.keep_urls m with _ | k0
        · rw [kept_for_append_of_none hkm r] at h
          by_cases hmr : mid_date r = m
          · rw [if_pos hmr] at h
            cases h
            exact ⟨List.mem_append_right _ (List.mem_singleton_self r), hmr⟩
          · rw [if_neg hmr] at h
            cases h
        · rw [kept_for_append_of_some hkm r] at h
          have hk0 : k0 = k := Option.some.inj h
          rw [hk0] at hkm
          obtain ⟨h1, h2⟩ := hkmem m k hkm
          exact ⟨List.mem_append_left _ h1, h2⟩
      · obtain ⟨hfmem, hfmid⟩ := hkmem _ _ hfind
        have hpe : acq_pair r = acq_pair found :=
          H1 r hrctx found (hsub1 found hfmem) hfmid.symm
        have hcond : ¬(r.acq1 ≠ found.acq1 ∨ r.acq2 ≠ found.acq2) := by
          push_neg
          exact ⟨congrArg Prod.fst hpe, congrArg Prod.snd hpe⟩
        rw [if_neg hcond]
        by_cases hproc : found.proc1 ≤ r.proc1 ∧ found.proc2 ≤ r.proc2
        · rw [if_pos hproc]
          refine ⟨_, rfl, ?_⟩
          intro m k h
          replace h : kept_for (set_first st.keep_urls (mid_date r) r) m = some k := h
          by_cases hm : m = mid_date r
          · subst hm
            rw [kept_for_set_first_self _ hfind rfl] at h
            have hk : r = k := Option.some.inj h
            rw [← hk]
            exact ⟨List.mem_append_right _ (List.mem_singleton_self r), rfl⟩
          · rw [kept_for_set_first_other _ rfl hm] at h
            obtain ⟨h1, h2⟩ := hkmem m k h
            exact ⟨List.mem_append_left _ h1, h2⟩
        · rw [if_neg hproc]
          refine ⟨_, rfl, ?_⟩
          intro m k h
          obtain ⟨h1, h2⟩ := hkmem m k h
          exact ⟨List.mem_append_left _ h1, h2⟩
    obtain ⟨st1, hs1, hk1⟩ := hstep
    have hI1 := (skip_step_ok_facts hI hs1).1
    have hsub1' : ∀ p ∈ processed ++ [r], p ∈ ctx := by
      intro p hp
      rcases List.mem_append.mp hp with hp | hp
      · exact hsub1 p hp
      · rw [List.mem_singleton.mp hp]
        exact hrctx
    have hsub2' : ∀ p ∈ rest, p ∈ ctx := fun p hp => hsub2 p (List.mem_cons_of_mem r hp)
    obtain ⟨st', hst'⟩ := ih (processed ++ [r]) st1 hI1 hsub1' hsub2' hk1 H1
    refine ⟨st', ?_⟩
    simp only [dedup_go]
    rw [hs1]
    exact hst'

/-- Under strict comparability, the kept granule for every mid-date is the
component-wise maximum of the granules processed so far in its mid-date
class. -/
theorem dedup_go_max (l : List GranuleRef) (ctx : List GranuleRef) :
    ∀ (processed : List GranuleRef) (st st' : DedupState), aligned st →
    dedup_go st l = .ok st' →
    (∀ p ∈ processed, p ∈ ctx) → (∀ p ∈ l, p ∈ ctx) →
    (∀ m k, kept_for st.keep_urls m = some k → mid_date k = m ∧ k ∈ processed ∧
      ∀ s ∈ processed, mid_date s = m → s = k ∨ dominates k s) →
    (∀ p ∈ processed, ∃ k, kept_for st.keep_urls (mid_date p) = some k) →
    (∀ r ∈ ctx, ∀ s ∈ ctx, mid_date r = mid_date s → r ≠ s →
      dominates r s ∨ dominates s r) →
    ∀ m k, kept_for st'.keep_urls m = some k → mid_date k = m ∧ k ∈ processed ++ l ∧
      ∀ s ∈ processed ++ l, mid_date s = m → s = k ∨ dominates k s := by
  induction l with
  | nil =>
    intro processed st st' hI hok hsub1 hsub2 hkept hcov H2 m k h
    simp only [dedup_go] at hok
    cases hok
    simpa using hkept m k h
  | cons r rest ih =>
    intro processed st st' hI hok hsub1 hsub2 hkept hcov H2
    simp only [dedup_go] at hok
    rcases hstep : skip_step st r with e | st1 <;> rw [hstep] at hok
    · cases hok
    · have hI1 := (skip_step_ok_facts hI hstep).1
      have hrctx : r ∈ ctx := hsub2 r (List.mem_cons_self r rest)
      have hnew : (∀ m k, kept_for st1.keep_urls m = some k →
            mid_date k = m ∧ k ∈ processed ++ [r] ∧
            ∀ s ∈ processed ++ [r], mid_date s = m → s = k ∨ dominates k s) ∧
          (∀ p ∈ processed ++ [r], ∃ k, kept_for st1.keep_urls (mid_date p) = some k) := by
        rw [skip_step_char st r hI] at hstep
        rcases hfind : kept_for st.keep_urls (mid_date r) with _ | found <;>
          simp only [hfind] at hstep
        · -- fresh mid-date: the incoming granule is appended and kept
          cases hstep
          constructor
          · intro m k h
            replace h : kept_for (st.keep_urls ++ [r]) m = some k := h
            rcases hkm : kept_for st.keep_urls m with _ | k0
            · rw [kept_for_append_of_none hkm r] at h
              by_cases hmr : mid_date r = m
              · rw [if_pos hmr] at h
                have hk : r = k := Option.some.inj h
                subst hk
                refine ⟨hmr, List.mem_append_right _ (List.mem_singleton_self r), ?_⟩
                intro s hs hsm
                rcases List.mem_append.mp hs with hs | hs
                · obtain ⟨k0, hk0⟩ := hcov s hs
                  rw [hsm] at hk0
                  rw [hk0] at hkm
                  cases hkm
                · rw [List.mem_singleton.mp hs]
                  exact Or.inl rfl
              · rw [if_neg hmr] at h
                cases h
            · rw [kept_for_append_of_some hkm r] at h
              have hk : k0 = k := Option.some.inj h
              subst hk
              obtain ⟨h1, h2, h3⟩ := hkept m k0 hkm
              refine ⟨h1, List.mem_append_left _ h2, ?_⟩
              intro s hs hsm
              rcases List.mem_append.mp hs with hs | hs
              · exact h3 s hs hsm
              · rw [List.mem_singleton.mp hs] at hsm ⊢
                rw [← hsm] at hkm
                rw [hkm] at hfind
                cases hfind
          · intro p hp
            rcases List.mem_append.mp hp with hp | hp
            · obtain ⟨k0, hk0⟩ := hcov p hp
              exact ⟨k0, kept_for_append_of_some hk0 r⟩
            · rw [List.mem_singleton.mp hp]
              refine ⟨r, ?_⟩
              show kept_for (st.keep_urls ++ [r]) (mid_date r) = some r
              rw [kept_for_append_of_none hfind r, if_pos rfl]
        · obtain ⟨hfmid, hfmem, hfmax⟩ := hkept _ _ hfind
          by_cases hpair : r.acq1 ≠ found.acq1 ∨ r.acq2 ≠ found.acq2
          · rw [if_pos hpair] at hstep
            cases hstep
          · rw [if_neg hpair] at hstep
            by_cases hproc : found.proc1 ≤ r.proc1 ∧ found.proc2 ≤ r.proc2
            · -- replacement: the incoming granule becomes the kept maximum
              rw [if_pos hproc] at hstep
              cases hstep
              have hrf : r = found ∨ dominates r found := by
                by_cases hrfeq : r = found
                · exact Or.inl hrfeq
                · rcases H2 r hrctx found (hsub1 found hfmem) hfmid.symm hrfeq with hd | hd
                  · exact Or.inr hd
                  · exact absurd hproc.1 (not_le.mpr hd.1)
              constructor
              · intro m k h
                replace h : kept_for (set_first st.keep_urls (mid_date r) r) m = some k := h
                by_cases hm : m = mid_date r
                · subst hm
                  rw [kept_for_set_first_self _ hfind rfl] at h
                  have hk : r = k := Option.some.inj h
                  subst hk
                  refine ⟨rfl, List.mem_append_right _ (List.mem_singleton_self r), ?_⟩
                  intro s hs hsm
                  rcases List.mem_append.mp hs with hs | hs
                  · rcases hfmax s hs hsm with hsf | hsf
                    · subst hsf
                      rcases hrf with hrf | hrf
                      · exact Or.inl hrf.symm
                      · exact Or.inr hrf
                    · rcases hrf with hrf | hrf
                      · rw [hrf]
                        exact Or.inr hsf
                      · exact Or.inr ⟨lt_trans hsf.1 hrf.1, lt_trans hsf.2 hrf.2⟩
                  · rw [List.mem_singleton.mp hs]
                    exact Or.inl rfl
                · rw [kept_for_set_first_other _ rfl hm] at h
                  obtain ⟨h1, h2, h3⟩ := hkept m k h
                  refine ⟨h1, List.mem_append_left _ h2, ?_⟩
                  intro s hs hsm
                  rcases List.mem_append.mp hs with hs | hs
                  · exact h3 s hs hsm
                  · rw [List.mem_singleton.mp hs] at hsm
                    exact absurd hsm.symm hm
              · intro p hp
                by_cases hmp : mid_date p = mid_date r
                · refine ⟨r, ?_⟩
                  rw [hmp]
                  exact kept_for_set_first_self _ hfind rfl
                · rcases List.mem_append.mp hp with hp | hp
                  · obtain ⟨k0, hk0⟩ := hcov p hp
                    refine ⟨k0, ?_⟩
                    rw [kept_for_set_first_other _ rfl hmp]
                    exact hk0
                  · rw [List.mem_singleton.mp hp] at hmp
                    exact absurd rfl hmp
            · -- discard: the kept granule already dominates the incoming one
              rw [if_neg hproc] at hstep
              cases hstep
              have hrneq : r ≠ found := by
                intro hrf
                rw [hrf] at hproc
                exact hproc ⟨le_refl _, le_refl _⟩
              have hdom : dominates found r := by
                rcases H2 r hrctx found (hsub1 found hfmem) hfmid.symm hrneq with hd | hd
                · exact absurd ⟨le_of_lt hd.1, le_of_lt hd.2⟩ hproc
                · exact hd
              constructor
              · intro m k h
                obtain ⟨h1, h2, h3⟩ := hkept m k h
                refine ⟨h1, List.mem_append_left _ h2, ?_⟩
                intro s hs hsm
                rcases List.mem_append.mp hs with hs | hs
                · exact h3 s hs hsm
                · rw [List.mem_singleton.mp hs] at hsm ⊢
                  have hk : found = k := by
                    rw [← hsm] at h
                    exact Option.some.inj (hfind.symm.trans h)
                  rw [← hk]
                  exact Or.inr hdom
              · intro p hp
                rcases List.mem_append.mp hp with hp | hp
                · exact hcov p hp
                · rw [List.mem_singleton.mp hp]
                  exact ⟨found, hfind⟩
      obtain ⟨hkept1, hcov1⟩ := hnew
      have hsub1' : ∀ p ∈ processed ++ [r], p ∈ ctx := by
        intro p hp
        rcases List.mem_append.mp hp with hp | hp
        · exact hsub1 p hp
        · rw [List.mem_singleton.mp hp]
          exact hrctx
      have hsub2' : ∀ p ∈ rest, p ∈ ctx := fun p hp => hsub2 p (List.mem_cons_of_mem r hp)
      have main := ih (processed ++ [r]) st1 st' hI1 hok hsub1' hsub2' hkept1 hcov1 H2
      intro m k h
      obtain ⟨h1, h2, h3⟩ := main m k h
      have heq : (processed ++ [r]) ++ rest = processed ++ (r :: rest) := by simp
      rw [heq] at h2 h3
      exact ⟨h1, h2, h3⟩

theorem kept_for_some_of_mem_mids {st : DedupState} {m : Int}
    (hI : aligned st) (h : m ∈ st.url_mid_dates) :
    ∃ k, kept_for st.keep_urls m = some k := by
  rw [hI] at h
  exact (contains_iff_kept st.keep_urls m).mp (List.elem_iff.mpr h)

/-- C3 (amended): duplicate resolution is permutation-invariant — as a map
from mid-date to kept granule — whenever equal-mid-date granules share their
acquisition pair and are strictly comparable component-wise on their
processing timestamps. -/
theorem skip_duplicate_perm_invariant (l1 l2 : List GranuleRef)
    (hperm : List.Perm l1 l2) (hpc : pairs_consistent l1)
    (hord : proc_strictly_ordered l1) :
    ∃ p1 p2, skip_duplicate_granules l1 = .ok p1 ∧
      skip_duplicate_granules l2 = .ok p2 ∧
      ∀ m, kept_for p1.1 m = kept_for p2.1 m := by
  have hpc2 : pairs_consistent l2 := fun r hr s hs =>
    hpc r (hperm.mem_iff.mpr hr) s (hperm.mem_iff.mpr hs)
  have hord2 : proc_strictly_ordered l2 := fun r hr s hs =>
    hord r (hperm.mem_iff.mpr hr) s (hperm.mem_iff.mpr hs)
  have hkemp : ∀ m k, kept_for (emptyDedupState.keep_urls) m = some k → False := by
    intro m k h
    simp [kept_for, emptyDedupState] at h
  obtain ⟨st1, hgo1⟩ := dedup_go_ok l1 l1 [] emptyDedupState aligned_empty
    (by simp) (fun p hp => hp) (fun m k h => absurd h (fun hh => hkemp m k hh)) hpc
  obtain ⟨st2, hgo2⟩ := dedup_go_ok l2 l2 [] emptyDedupState aligned_empty
    (by simp) (fun p hp => hp) (fun m k h => absurd h (fun hh => hkemp m k hh)) hpc2
  have max1 := dedup_go_max l1 l1 [] emptyDedupState st1 aligned_empty hgo1
    (by simp) (fun p hp => hp)
    (fun m k h => absurd h (fun hh => hkemp m k hh))
    (by simp) hord
  have max2 := dedup_go_max l2 l2 [] emptyDedupState st2 aligned_empty hgo2
    (by simp) (fun p hp => hp)
    (fun m k h => absurd h (fun hh => hkemp m k hh))
    (by simp) hord2
  obtain ⟨hA1, hM1, -⟩ := dedup_go_facts aligned_empty hgo1
  obtain ⟨hA2, hM2, -⟩ := dedup_go_facts aligned_empty hgo2
  refine ⟨(st1.keep_urls, st1.skipped_double), (st2.keep_urls, st2.skipped_double),
    ?_, ?_, ?_⟩
  · unfold skip_duplicate_granules
    rw [hgo1]
  · unfold skip_duplicate_granules
    rw [hgo2]
  · intro m
    by_cases hm : ∃ r, r ∈ l1 ∧ mid_date r = m
    · obtain ⟨r, hr, hmr⟩ := hm
      have hmem1 : m ∈ st1.url_mid_dates := by
        rw [hM1]
        refine (mem_foldl_insert_new _ _ m).mpr (Or.inr ?_)
        exact hmr ▸ List.mem_map_of_mem mid_date hr
      have hmem2 : m ∈ st2.url_mid_dates := by
        rw [hM2]
        refine (mem_foldl_insert_new _ _ m).mpr (Or.inr ?_)
        exact hmr ▸ List.mem_map_of_mem mid_date (hperm.mem_iff.mp hr)
      obtain ⟨k1, hk1⟩ := kept_for_some_of_mem_mids hA1 hmem1
      obtain ⟨k2, hk2⟩ := kept_for_some_of_mem_mids hA2 hmem2
      obtain ⟨c1mid, c1mem, c1max⟩ := max1 m k1 hk1
      obtain ⟨c2mid, c2mem, c2max⟩ := max2 m k2 hk2
      have hd1 : k2 = k1 ∨ dominates k1 k2 :=
        c1max k2 (by simpa using hperm.mem_iff.mpr (by simpa using c2mem)) c2mid
      have hd2 : k1 = k2 ∨ dominates k2 k1 :=
        c2max k1 (by simpa using hperm.mem_iff.mp (by simpa using c1mem)) c1mid
      have hk12 : k1 = k2 := by
        rcases hd1 with h | h
        · exact h.symm
        · rcases hd2 with h' | h'
          · exact h'
          · exact absurd h.1 (not_lt.mpr (le_of_lt h'.1))
      rw [hk1, hk2, hk12]
    · push_neg at hm
      have h1 : kept_for st1.keep_urls m = none := by
        rcases h : kept_for st1.keep_urls m with _ | k
        · rfl
        · obtain ⟨cmid, cmem, -⟩ := max1 m k h
          exact absurd cmid (hm k (by simpa using cmem))
      have h2 : kept_for st2.keep_urls m = none := by
        rcases h : kept_for st2.keep_urls m with _ | k
        · rfl
        · obtain ⟨cmid, cmem, -⟩ := max2 m k h
          exact absurd cmid (hm k (hperm.mem_iff.mpr (by simpa using cmem)))
      rw [h1, h2]

/-- Counterexample to C3 as stated: the two permutations of a list whose
processing timestamps are pairwise distinct yield different kept sets keyed
by mid-point timestamp. -/
theorem skip_duplicate_perm_counterexample :
    List.Perm [incompA, incompB] [incompB, incompA] ∧
    ([incompA.proc1, incompA.proc2, incompB.proc1, incompB.proc2] : List Int).Nodup ∧
    mid_date incompA = mid_date incompB ∧
    skip_duplicate_granules [incompA, incompB] = .ok ([incompA], [incompB]) ∧
    skip_duplicate_granules [incompB, incompA] = .ok ([incompB], [incompA]) ∧
    kept_for [incompA] (mid_date incompA) ≠ kept_for [incompB] (mid_date incompA) :=
  ⟨by decide, by decide, by decide, by rfl, by rfl, by decide⟩

/-- Witness for the amended C3 on the concrete scenario pair and its swap. -/
theorem skip_duplicate_perm_invariant_witness :
    ∃ p1 p2, skip_duplicate_granules [scenarioA, scenarioB] = .ok p1 ∧
      skip_duplicate_granules [scenarioB, scenarioA] = .ok p2 ∧
      ∀ m, kept_for p1.1 m = kept_for p2.1 m :=
  skip_duplicate_perm_invariant [scenarioA, scenarioB] [scenarioB, scenarioA]
    (by decide) (by decide) (by decide)

/-- C4: the wrong-projection check runs strictly before the empty-region
check, so a granule is rejected for at most one reason — an empty-flagged
result always has the cube's projection, a wrong-projection granule is
registered only in the wrong-projection registry, an in-projection empty
granule only in the empty registry; and in the concrete 3-granule batch in
which exactly granule 2 has a foreign projection, the accumulator holds
exactly 2 time-slices and the wrong-projection registry exactly one entry,
keyed by granule 2's projection, of length 1. -/
theorem rejection_exclusivity (cube : CubeConfig)
    (g1 g2 g3 : GranuleDataset) (u1 u2 u3 : Nat)
    (h1 : g1.spatial_epsg = cube.projection)
    (h3 : g3.spatial_epsg = cube.projection)
    (h2 : g2.spatial_epsg ≠ cube.projection)
    (hne1 : (g1.cells.filter (in_region cube)).any (fun c => c.2.2.isSome) = true)
    (hne3 : (g3.cells.filter (in_region cube)).any (fun c => c.2.2.isSome) = true) :
    (∀ ds u, (preprocess_dataset cube ds u).is_empty = true →
      ds.spatial_epsg = cube.projection) ∧
    (∀ ds u st, ds.spatial_epsg ≠ cube.projection →
      add_layer st (preprocess_dataset cube ds u) =
        { st with skipped_proj_granules :=
            set_default_append st.skipped_proj_granules ds.spatial_epsg u }) ∧
    (∀ ds u st, ds.spatial_epsg = cube.projection →
      (ds.cells.filter (in_region cube)).any (fun c => c.2.2.isSome) = false →
      add_layer st (preprocess_dataset cube ds u) =
        { st with skipped_empty_granules := st.skipped_empty_granules ++ [u] }) ∧
    ((process_batch cube emptyAccum [(g1, u1), (g2, u2), (g3, u3)]).ds.length = 2 ∧
     (process_batch cube emptyAccum [(g1, u1), (g2, u2), (g3, u3)]).skipped_proj_granules =
       [(g2.spatial_epsg, [u2])]) := by
  have hwrong : ∀ ds u, ds.spatial_epsg ≠ cube.projection →
      preprocess_dataset cube ds u = ⟨false, ds.spatial_epsg, none, u, none⟩ := by
    intro ds u h
    unfold preprocess_dataset
    rw [if_neg h]
  have hempty : ∀ ds u, ds.spatial_epsg = cube.projection →
      (ds.cells.filter (in_region cube)).any (fun c => c.2.2.isSome) = false →
      preprocess_dataset cube ds u = ⟨true, ds.spatial_epsg, none, u, none⟩ := by
    intro ds u h he
    unfold preprocess_dataset
    rw [if_pos h]
    simp only [he]
    rfl
  have haccept : ∀ ds u, ds.spatial_epsg = cube.projection →
      (ds.cells.filter (in_region cube)).any (fun c => c.2.2.isSome) = true →
      preprocess_dataset cube ds u =
        ⟨false, ds.spatial_epsg, some (ds.date_center * msPerDay + ds.date_dt), u,
         some (ds.cells.filter (in_region cube))⟩ := by
    intro ds u h he
    unfold preprocess_dataset
    rw [if_pos h]
    simp only [he]
    rfl
  refine ⟨?_, ?_, ?_, ?_⟩
  · intro ds u h
    by_contra hp
    rw [hwrong ds u hp] at h
    cases h
  · intro ds u st h
    rw [hwrong ds u h]
    rfl
  · intro ds u st h he
    rw [hempty ds u h he]
    rfl
  · have e1 := haccept g1 u1 h1 hne1
    have e2 := hwrong g2 u2 h2
    have e3 := haccept g3 u3 h3 hne3
    unfold process_batch
    rw [List.foldl_cons, List.foldl_cons, List.foldl_cons, List.foldl_nil, e1, e2, e3]
    unfold add_layer emptyAccum set_default_append
    simp

/-- Witness for C4 on a concrete 3-granule batch. -/
theorem rejection_exclusivity_witness :
    (process_batch cube0 emptyAccum
      [(gridGood, 1), (gridWrong, 2), (gridGood, 3)]).ds.length = 2 ∧
    (process_batch cube0 emptyAccum
      [(gridGood, 1), (gridWrong, 2), (gridGood, 3)]).skipped_proj_granules =
      [(gridWrong.spatial_epsg, [2])] :=
  (rejection_exclusivity cube0 gridGood gridWrong gridGood 1 2 3
    (by decide) (by decide) (by decide) (by decide) (by decide)).2.2.2

/-- C6 (amended): `preprocess_dataset` uniformly returns a five-component
result `(is_empty, source projection, optional mid-date, granule url,
optional layer)`, one of three shapes — wrong projection, empty region, or
accepted — and always carries the input url as its fourth component. -/
theorem preprocess_result_shape (cube : CubeConfig) (ds : GranuleDataset) (u : Nat) :
    (preprocess_dataset cube ds u).url = u ∧
    (preprocess_dataset cube ds u).projection = ds.spatial_epsg ∧
    (preprocess_dataset cube ds u = ⟨false, ds.spatial_epsg, none, u, none⟩ ∨
     preprocess_dataset cube ds u = ⟨true, ds.spatial_epsg, none, u, none⟩ ∨
     ∃ m d, preprocess_dataset cube ds u = ⟨false, ds.spatial_epsg, some m, u, some d⟩) := by
  unfold preprocess_dataset
  by_cases hp : ds.spatial_epsg = cube.projection
  · rw [if_pos hp]
    by_cases hv : (ds.cells.filter (in_region cube)).any (fun c => c.2.2.isSome) = true
    · simp only [hv]
      exact ⟨rfl, rfl, Or.inr (Or.inr ⟨_, _, rfl⟩)⟩
    · simp only [Bool.not_eq_true] at hv
      simp only [hv]
      exact ⟨rfl, rfl, Or.inr (Or.inl rfl)⟩
  · rw [if_neg hp]
    exact ⟨rfl, rfl, Or.inl rfl⟩

/-- Counterexample to C6 as stated: two runs on the same grid that agree on
all four spec components (empty flag, projection id, mid-date, layer) but
produce different results — the result also carries the granule URL, i.e. it
is a five-tuple, not a four-tuple. -/
theorem preprocess_result_not_four_tuple :
    (preprocess_dataset cube0 gridGood 5).is_empty =
      (preprocess_dataset cube0 gridGood 7).is_empty ∧
    (preprocess_dataset cube0 gridGood 5).projection =
      (preprocess_dataset cube0 gridGood 7).projection ∧
    (preprocess_dataset cube0 gridGood 5).mid_date =
      (preprocess_dataset cube0 gridGood 7).mid_date ∧
    (preprocess_dataset cube0 gridGood 5).data =
      (preprocess_dataset cube0 gridGood 7).data ∧
    preprocess_dataset cube0 gridGood 5 ≠ preprocess_dataset cube0 gridGood 7 := by
  refine ⟨by decide, by decide, by decide, by decide, by decide⟩

/-- C5: for a granule parsed from a filename, the derived mid-date is the
calendar mid-point (acquisition 2 plus half the whole-day acquisition
separation) plus the day separation again as a millisecond offset; hence two
granules that agree on the calendar mid-point but differ in day separation
get distinct mid-dates. -/
theorem mid_date_derivation (tokens : List Int) (a1 p1 a2 p2 : Int) (url : Nat)
    (hparse : get_dates_from_filename tokens = some (a1, p1, a2, p2)) :
    mid_date ⟨url, a1, p1, a2, p2⟩ =
      calendar_mid_date ⟨url, a1, p1, a2, p2⟩ + day_separation ⟨url, a1, p1, a2, p2⟩ ∧
    (∀ r s : GranuleRef, calendar_mid_date r = calendar_mid_date s →
      day_separation r ≠ day_separation s → mid_date r ≠ mid_date s) := by
  constructor
  · unfold mid_date calendar_mid_date day_separation msPerDay
    norm_num
  · intro r s hcal hsep
    unfold mid_date
    unfold calendar_mid_date at hcal
    unfold msPerDay at hcal ⊢
    intro hmid
    apply hsep
    omega

/-- Witness for C5 on the sample filename's token list. -/
theorem mid_date_derivation_witness :
    mid_date ⟨0, 16668, 17261, 16636, 17262⟩ =
      calendar_mid_date ⟨0, 16668, 17261, 16636, 17262⟩ +
        day_separation ⟨0, 16668, 17261, 16636, 17262⟩ ∧
    (∀ r s : GranuleRef, calendar_mid_date r = calendar_mid_date s →
      day_separation r ≠ day_separation s → mid_date r ≠ mid_date s) :=
  mid_date_derivation sampleTokens 16668 17261 16636 17262 0 (by decide)

/-- C9: attribute extraction returns the stored value when present,
the supplied default when absent, and raises (rather than returning a
sentinel) when absent with no default supplied. -/
theorem get_data_var_attr_spec (ds : XrDataset) (vn an : String) (dflt : Option Int) :
    (∀ dv v, ds.data_vars.lookup vn = some dv → dv.attrs.lookup an = some v →
      get_data_var_attr ds vn an dflt = .ok v) ∧
    (∀ mv, has_attr ds vn an = false → dflt = some mv →
      get_data_var_attr ds vn an dflt = .ok mv) ∧
    (has_attr ds vn an = false → dflt = none →
      ∃ e, get_data_var_attr ds vn an dflt = .error e) := by
  refine ⟨?_, ?_, ?_⟩
  · intro dv v hdv hv
    unfold get_data_var_attr
    simp only [hdv, hv]
  · intro mv habs hd
    subst hd
    unfold get_data_var_attr
    unfold has_attr at habs
    rcases hdv : ds.data_vars.lookup vn with _ | dv <;> simp only [hdv] at habs ⊢
    rcases hv : dv.attrs.lookup an with _ | v <;> simp only [hv] at habs ⊢
    simp at habs
  · intro habs hd
    subst hd
    unfold get_data_var_attr
    unfold has_attr at habs
    rcases hdv : ds.data_vars.lookup vn with _ | dv <;> simp only [hdv] at habs ⊢
    · exact ⟨_, rfl⟩
    · rcases hv : dv.attrs.lookup an with _ | v <;> simp only [hv] at habs ⊢
      · exact ⟨_, rfl⟩
      · simp at habs

/-- Witness for C9 exercising all three branches on `ds0`. -/
theorem get_data_var_attr_witness :
    get_data_var_attr ds0 "vx" "stable_shift" none = .ok 3 ∧
    get_data_var_attr ds0 "vx" "vx_error" (some (-32767)) = .ok (-32767) ∧
    ∃ e, get_data_var_attr ds0 "vx" "stable_count" none = .error e :=
  ⟨(get_data_var_attr_spec ds0 "vx" "stable_shift" none).1 _ 3 rfl rfl,
   (get_data_var_attr_spec ds0 "vx" "vx_error" (some (-32767))).2.1 (-32767) rfl rfl,
   (get_data_var_attr_spec ds0 "vx" "stable_count" none).2.2 rfl rfl⟩

/-- C7: per-variable fill-value metadata is attached only on the first write
(no attributes or encodings are emitted on appends), every multi-batch run
leaves the store's metadata exactly as fixed at creation, and re-asserting
the attributes on an append is a detectable error, not silently ignored. -/
theorem fill_value_set_once :
    missing_value_attrs false = [] ∧
    encoding_settings false = [] ∧
    (∀ n : Nat, write_batches (n + 1) =
      .ok (some ⟨missing_value_attrs true, encoding_settings true⟩)) ∧
    (∃ e, to_zarr (some ⟨missing_value_attrs true, encoding_settings true⟩) false
      (missing_value_attrs true) (encoding_settings true) = .error e) := by
  refine ⟨rfl, rfl, ?_, ⟨_, by rfl⟩⟩
  intro n
  induction n with
  | zero => rfl
  | succ k ih =>
    show (match write_batches (k + 1) with
      | Except.error e => (Except.error e : Except String (Option ZarrStore))
      | Except.ok store =>
        match combine_layers store (decide (k + 1 = 0)) with
        | Except.error e => Except.error e
        | Except.ok s => Except.ok (some s)) =
      Except.ok (some ⟨missing_value_attrs true, encoding_settings true⟩)
    rw [ih]
    rfl

/-- C8: a search returning zero candidate URLs makes the run fail
immediately — `request_granules` errors for every `num_granules` setting
before duplicate resolution is consulted, and the overall run fetches zero
granules and writes zero batches. -/
theorem empty_search_is_fatal (num_granules : Option Nat) :
    request_granules [] num_granules =
      .error "No granules are found for the search API parameters" ∧
    create_run [] num_granules =
      (.error "No granules are found for the search API parameters", 0, 0) := by
  constructor
  · rfl
  · rfl

end ItsLive
